import Mathlib

/-!
Shallow embedding of the `virtual_filesystem` repository (Rust) for checking
its natural-language specification.

Embedded from the source files:
 - `src/file/mod.rs` : the `File` struct, `File::len`, `File::clone`,
   `File::new_empty`, the `Default` impl and the `test_file` fixture.
 - `src/btrfs.rs`    : the rename effect on the path→entry map
   (`entries.remove(from)` then `entries.insert(to, ...)`).

The repository modules `src/file/extent.rs`, `src/file/reader.rs`,
`src/file/writer.rs`, `src/entry.rs`, `src/lib.rs` and the single-subvolume
typed-error command interpreter with its Subvolume Ledger are declared or
used by the provided sources but their code is not available; those parts
are modelled from the specification (§3, §4.2–§4.5, §7) and are marked
`Modelled from the spec:` below.

Bytes are modelled as `Nat`, the ordered `BTreeMap`s as key-ascending
association lists, and `usize` arithmetic as `Nat` (no overflow is reachable
at the sizes involved).
-/

namespace VFS

/-- A byte of file content (`u8` in the source). -/
abbrev Byte := Nat

/-- Modelled from the spec: `src/file/extent.rs` is not in the provided
sources. §3: `Owned { data }` or `Cloned { source_range: [start,end),
data: cached byte view of that range }` (the `src_file` back-reference is
replaced by the cached view, per the materialization option of §9). -/
inductive Extent where
  | owned (data : List Byte)
  | cloned (srcStart srcEnd : Nat) (data : List Byte)
deriving DecidableEq

/-- Modelled from the spec: logical length of an extent (§3 invariant:
`end - start` for Cloned, `data.len()` for Owned). -/
def Extent.len : Extent → Nat
  | .owned d => d.length
  | .cloned s e _ => e - s

/-- Modelled from the spec: the byte view behind an extent (`ext.data()` in
`src/file/mod.rs`), the cached materialized view for Cloned. -/
def Extent.data : Extent → List Byte
  | .owned d => d
  | .cloned _ _ d => d

/-- §3 invariant: an extent's cached byte view has exactly its logical
length (definitionally true for Owned, the Cloned invariant of the spec). -/
def Extent.WF (ex : Extent) : Prop := ex.data.length = ex.len

/-- The `source_range` of a Cloned extent; for an Owned extent the range
`[0, data.len())` it covers of itself. -/
def Extent.rangeOf : Extent → Nat × Nat
  | .owned d => (0, d.length)
  | .cloned s e _ => (s, e)

/-- `File` from `src/file/mod.rs`: the extent map `BTreeMap<usize, Extent>`
is a key-ascending association list; `Mode`, `Uid`, `Gid` are `Nat`. -/
structure File where
  extents : List (Nat × Extent)
  mode : Nat
  uid : Nat
  gid : Nat
  xattrs : List (String × List Byte)
deriving DecidableEq

/-- The `Default` impl for `File` in `src/file/mod.rs`: no extents,
mode `0o444`, uid 0, gid 0, no xattrs. -/
def File.default : File := ⟨[], 0o444, 0, 0, []⟩

/-- `File::new_empty` builds the default file. -/
def File.new_empty : File := File.default

/-- `File::len` from `src/file/mod.rs`: `last_key_value` of the extent map
(the last entry of the ascending list), `start + ext.len()`, else 0. -/
def File.len (f : File) : Nat :=
  match f.extents.getLast? with
  | none => 0
  | some (s, ex) => s + ex.len

/-- `File::clone` from `src/file/mod.rs`: iterate the extents whose key
lies in `[rstart, rend)` (Rust `self.extents.range(range)`), and for each
produce `Extent::Cloned` with `start = max(range.start, ext_start)`,
`end = min(range.end, ext_start + ext.len())` and the byte view
`ext.data()[start - ext_start .. end - ext_start]`. -/
def File.clone (f : File) (rstart rend : Nat) : List Extent :=
  (f.extents.filter fun p => decide (rstart ≤ p.1) && decide (p.1 < rend)).map
    fun p =>
      Extent.cloned (max rstart p.1) (min rend (p.1 + p.2.len))
        ((p.2.data.drop (max rstart p.1 - p.1)).take
          (min rend (p.1 + p.2.len) - p.1 - (max rstart p.1 - p.1)))

/-- Modelled from the spec: `src/file/reader.rs` is not in the provided
sources. §4.2: the reader yields the extents' bytes in ascending offset
order, Cloned extents resolved through the cached view; `to_bytes`
materializes the full content by exhausting the reader. -/
def File.to_bytes (f : File) : List Byte :=
  (f.extents.map fun p => p.2.data).flatten

/-- Modelled from the spec: `src/file/writer.rs` is not in the provided
sources. §4.2: the writer accepts extents and appends them at increasing
offsets; each write lands at the file's current logical length. -/
def File.write (f : File) (ex : Extent) : File :=
  { f with extents := f.extents ++ [(f.len, ex)] }

/-- Writing a sequence of extents, first to last (the `for ex in extents`
loop of the `cloning` test in `src/file/mod.rs`). -/
def File.writeAll (f : File) (exs : List Extent) : File :=
  exs.foldl File.write f

/-- The `test_file()` fixture of `src/file/mod.rs`: extents
`[0,11) = "Lorem ipsum"` and `[11,26) = " dolor sit amet"`. -/
def loremIpsum : List Byte :=
  [76, 111, 114, 101, 109, 32, 105, 112, 115, 117, 109]

/-- The bytes of `" dolor sit amet"`. -/
def dolorSitAmet : List Byte :=
  [32, 100, 111, 108, 111, 114, 32, 115, 105, 116, 32, 97, 109, 101, 116]

/-- The bytes of `"Lorem"`. -/
def loremBytes : List Byte := [76, 111, 114, 101, 109]

def test_file : File :=
  { File.default with
      extents := [(0, .owned loremIpsum), (11, .owned dolorSitAmet)] }

/-- The extent map's keys are strictly ascending (the `BTreeMap` iteration
order guarantee the list representation stands for). -/
def File.keysAscending (f : File) : Prop :=
  f.extents.Pairwise fun p q => p.1 < q.1

/-- `p` covers at least one byte position inside `[rstart, rend)`. -/
def overlapsRange (p : Nat × Extent) (rstart rend : Nat) : Prop :=
  p.1 < rend ∧ rstart < p.1 + p.2.len

/-- The piece ranges the amended clipping rule predicts: one per extent
whose starting offset lies in `[rstart, rend)`, clipped to
`[max(rstart, start), min(rend, start + len))`. -/
def selectedPieces (f : File) (rstart rend : Nat) : List (Nat × Nat) :=
  (f.extents.filter fun p => decide (rstart ≤ p.1) && decide (p.1 < rend)).map
    fun p => (max rstart p.1, min rend (p.1 + p.2.len))

end VFS

namespace VFS

/-- Modelled from the spec: `src/entry.rs` is not in the provided sources.
§3: a Directory carries `mode`, `uid`, `gid`, `xattrs` and no content. -/
structure Directory where
  mode : Nat
  uid : Nat
  gid : Nat
  xattrs : List (String × List Byte)
deriving DecidableEq

/-- Modelled from the spec: §9 defaults — mode read-only (`0o444`),
owner/group root (0), xattrs empty (matching the `File` default). -/
def Directory.default : Directory := ⟨0o444, 0, 0, []⟩

/-- Modelled from the spec: §3 `Entry` is polymorphic over File and
Directory. -/
inductive Entry where
  | file (f : File)
  | dir (d : Directory)
deriving DecidableEq

def Entry.isFile : Entry → Bool
  | .file _ => true
  | .dir _ => false

/-- Metadata update for chmod: set the mode of either entry kind. -/
def Entry.withMode (m : Nat) : Entry → Entry
  | .file f => .file { f with mode := m }
  | .dir d => .dir { d with mode := m }

/-- Metadata update for chown: set uid and gid of either entry kind. -/
def Entry.withOwner (u g : Nat) : Entry → Entry
  | .file f => .file { f with uid := u, gid := g }
  | .dir d => .dir { d with uid := u, gid := g }

/-- The typed error kinds of §7. -/
inductive FsError where
  | invariantViolated
  | missingParent (id : Nat)
  | missingEntry (path : String)
  | wrongEntryKind (path : String)
deriving DecidableEq

/-- The Filesystem tree: the ordered path→Entry map (`Filesystem.entries`
in the source, a `BTreeMap<PathBuf, Entry>`), as an association list. -/
structure Tree where
  entries : List (String × Entry)
deriving DecidableEq

def Tree.empty : Tree := ⟨[]⟩

/-- §4.3 `get(path)`: lookup, absence is a normal condition. -/
def Tree.get (t : Tree) (p : String) : Option Entry :=
  (t.entries.find? fun q => q.1 == p).map Prod.snd

/-- Drop any binding at `p` (the removal half of `BTreeMap::remove` /
the overwrite half of `BTreeMap::insert`). -/
def Tree.erase (t : Tree) (p : String) : Tree :=
  ⟨t.entries.filter fun q => q.1 != p⟩

/-- §4.3 `insert(path, Entry)`: inserts or overwrites, no parent check. -/
def Tree.insert (t : Tree) (p : String) (e : Entry) : Tree :=
  ⟨(p, e) :: (t.erase p).entries⟩

/-- Modelled from the spec: §4.3 `remove(path)` of the typed-error tree API
(not in the provided sources, which panic instead): removes and returns the
entry, `MissingEntry` if absent. -/
def Tree.removeEntry (t : Tree) (p : String) : Except FsError (Entry × Tree) :=
  match t.get p with
  | none => .error (.missingEntry p)
  | some e => .ok (e, t.erase p)

/-- Modelled from the spec: §4.3 `chmod(path, mode)` — `MissingEntry` if the
path does not exist, else update the target entry's mode in place. -/
def Tree.chmod (t : Tree) (p : String) (m : Nat) : Except FsError Tree :=
  match t.get p with
  | none => .error (.missingEntry p)
  | some e => .ok (t.insert p (Entry.withMode m e))

/-- Modelled from the spec: §4.3 `chown(path, uid, gid)` — `MissingEntry` if
the path does not exist, else update uid/gid in place. -/
def Tree.chown (t : Tree) (p : String) (u g : Nat) : Except FsError Tree :=
  match t.get p with
  | none => .error (.missingEntry p)
  | some e => .ok (t.insert p (Entry.withOwner u g e))

/-- §4.4 Rename / the rename arm of `src/btrfs.rs` (lines 67–73): remove the
entry at the from-path, insert it at the to-path; the typed-error variant
(§4.3/§9) surfaces `MissingEntry` where the provided source `expect`s. -/
def Tree.rename (t : Tree) (a b : String) : Except FsError Tree :=
  match t.removeEntry a with
  | .error err => .error err
  | .ok (e, t2) => .ok (t2.insert b e)

/-- Modelled from the spec: §6 — the closed command set handed over by the
protocol decoder; `other` stands for every unrecognized record. -/
inductive Command where
  | subvol (id : Nat)
  | snapshot (id parent : Nat)
  | mkdir (path : String)
  | mkfile (path : String)
  | chmod (path : String) (mode : Nat)
  | chown (path : String) (uid gid : Nat)
  | rename (fromPath toPath : String)
  | cloneRange (srcPath : String) (srcStart srcEnd : Nat)
      (dstPath : String) (dstOffset : Nat)
  | other
deriving DecidableEq

/-- Insert an extent into the key-ascending extent list, overwriting an
equal key (`BTreeMap::insert`). -/
def insertExtentList : List (Nat × Extent) → Nat → Extent → List (Nat × Extent)
  | [], k, ex => [(k, ex)]
  | p :: rest, k, ex =>
    if k < p.1 then (k, ex) :: p :: rest
    else if k = p.1 then (k, ex) :: rest
    else p :: insertExtentList rest k ex

/-- Write extents into a file starting at a given offset, each following
extent placed right after the previous one (§4.4 Clone: "write resulting
extents into dst File at dst_offset via 4.2"). -/
def File.writeAt (f : File) (off : Nat) : List Extent → File
  | [] => f
  | ex :: rest =>
    File.writeAt { f with extents := insertExtentList f.extents off ex }
      (off + ex.len) rest

/-- Modelled from the spec: §4.4 per-command transitions of the
`Interpreting` state (the typed-error single-subvolume interpreter is not
in the provided sources); unrecognized commands are skipped without
failing the batch, a Subvol/Snapshot record past the first position is
outside the modeled subset and likewise skipped. -/
def applyCommand (t : Tree) : Command → Except FsError Tree
  | .mkdir p => .ok (t.insert p (.dir Directory.default))
  | .mkfile p => .ok (t.insert p (.file File.default))
  | .chmod p m => t.chmod p m
  | .chown p u g => t.chown p u g
  | .rename a b => t.rename a b
  | .cloneRange sp ss se dp doff =>
    match t.get sp with
    | none => .error (.missingEntry sp)
    | some (.dir _) => .error (.wrongEntryKind sp)
    | some (.file srcF) =>
      match t.get dp with
      | none => .error (.missingEntry dp)
      | some (.dir _) => .error (.wrongEntryKind dp)
      | some (.file dstF) =>
        .ok (t.insert dp (.file (dstF.writeAt doff (srcF.clone ss se))))
  | .subvol _ => .ok t
  | .snapshot _ _ => .ok t
  | .other => .ok t

/-- Fail-fast left fold of commands over a tree (§7: the first error aborts
the batch). -/
def applyCommands (t : Tree) : List Command → Except FsError Tree
  | [] => .ok t
  | c :: cs =>
    match applyCommand t c with
    | .error e => .error e
    | .ok t2 => applyCommands t2 cs

/-- §3 `Subvol`: optional parent identifier plus the finished tree. -/
structure Subvol where
  parent_uuid : Option Nat
  fs : Tree
deriving DecidableEq

/-- §3 Subvols / Ledger: ordered map subvolume-identifier → Subvol. -/
structure Ledger where
  subvols : List (Nat × Subvol)
deriving DecidableEq

def Ledger.empty : Ledger := ⟨[]⟩

def Ledger.get (led : Ledger) (u : Nat) : Option Subvol :=
  (led.subvols.find? fun q => q.1 == u).map Prod.snd

def Ledger.insert (led : Ledger) (u : Nat) (sv : Subvol) : Ledger :=
  ⟨(u, sv) :: led.subvols.filter fun q => q.1 != u⟩

/-- The starting tree of a fresh subvolume: §4.4 — empty tree with an
implicit root Directory at the empty path. -/
def rootTree : Tree := Tree.empty.insert "" (.dir Directory.default)

/-- Modelled from the spec: §4.4 state machine on one command batch (the
typed-error interpreter is not in the provided sources). The first command
must be Subvol (fresh tree, `parent_uuid = none`) or Snapshot (deep-clone
the parent's tree from the Ledger, `MissingParent` if absent,
`parent_uuid = some parent`); any other first command, or an empty batch,
is `InvariantViolated`. -/
def interpretBatch (led : Ledger) : List Command → Except FsError (Nat × Subvol)
  | [] => .error .invariantViolated
  | Command.subvol u :: rest =>
    (applyCommands rootTree rest).map fun t => (u, ⟨none, t⟩)
  | Command.snapshot u par :: rest =>
    match led.get par with
    | none => .error (.missingParent par)
    | some sv => (applyCommands sv.fs rest).map fun t => (u, ⟨some par, t⟩)
  | _ :: _ => .error .invariantViolated

/-- Modelled from the spec: §4.5 `receive(batch)` — run the interpreter to
completion and insert the result under the batch's identifier; a failed
batch leaves the Ledger unchanged and surfaces the typed error. -/
def Ledger.receive (led : Ledger) (cmds : List Command) : Ledger × Option FsError :=
  match interpretBatch led cmds with
  | .error e => (led, some e)
  | .ok (u, sv) => (led.insert u sv, none)

end VFS

namespace VFS

theorem find?_filter_key (l : List (String × Entry)) (p q : String) (h : q ≠ p) :
    (l.filter fun r => r.1 != p).find? (fun r => r.1 == q)
      = l.find? fun r => r.1 == q := by
  induction l with
  | nil => rfl
  | cons r rest ih =>
    by_cases hrq : r.1 = q
    · have hbp : (r.1 != p) = true := by
        rw [bne_iff_ne, hrq]
        exact h
      have hbq : (r.1 == q) = true := by
        rw [beq_iff_eq]
        exact hrq
      simp [List.filter_cons, List.find?_cons, hbp, hbq]
    · have hbq : (r.1 == q) = false := by
        rw [beq_eq_false_iff_ne]
        exact hrq
      by_cases hrp : r.1 = p
      · have hbp : (r.1 != p) = false := by
          rw [bne_eq_false_iff_eq]
          exact hrp
        simp [List.filter_cons, List.find?_cons, hbp, hbq, ih]
      · have hbp : (r.1 != p) = true := by
          rw [bne_iff_ne]
          exact hrp
        simp [List.filter_cons, List.find?_cons, hbp, hbq, ih]

theorem Tree.get_insert_self (t : Tree) (p : String) (e : Entry) :
    (t.insert p e).get p = some e := by
  simp [Tree.insert, Tree.get, List.find?_cons]

theorem Tree.get_insert_ne (t : Tree) (p q : String) (e : Entry) (h : q ≠ p) :
    (t.insert p e).get q = t.get q := by
  have hpq : (p == q) = false := by
    simp
    exact Ne.symm h
  simp [Tree.insert, Tree.get, Tree.erase, List.find?_cons, hpq,
    find?_filter_key _ p q h]

theorem Tree.get_erase_ne (t : Tree) (p q : String) (h : q ≠ p) :
    (t.erase p).get q = t.get q := by
  simp [Tree.erase, Tree.get, find?_filter_key _ p q h]

end VFS

namespace VFS

/-- C1 (counterexample): the extent `[0,11)` of a file holding only
"Lorem ipsum" overlaps the requested range `[2,5)`, yet `File::clone`
produces no piece for it — the claim's "one piece for each existing extent
overlapping the request" fails, because the code only visits extents whose
starting offset lies inside the request. -/
theorem clone_overlap_counterexample :
    (0, Extent.owned loremIpsum) ∈
        (File.mk [(0, .owned loremIpsum)] 292 0 0 []).extents ∧
    overlapsRange (0, Extent.owned loremIpsum) 2 5 ∧
    (File.mk [(0, .owned loremIpsum)] 292 0 0 []).clone 2 5 = [] := by
  refine ⟨by decide, ?_, by decide⟩
  unfold overlapsRange
  decide

/-- C1 (amended): for a file with ascending extent keys and a requested
range `[rstart, rend)`, `File::clone` produces one piece for each existing
extent whose starting offset lies within the request, with source range
`[max(rstart, start), min(rend, start + len))`, and the pieces come in
ascending offset order. -/
theorem clone_pieces_amended (f : File) (rstart rend : Nat)
    (hasc : f.keysAscending) (hr : rstart ≤ rend) :
    (f.clone rstart rend).map Extent.rangeOf = selectedPieces f rstart rend ∧
    ((f.clone rstart rend).map Extent.rangeOf).Pairwise
      fun a b => a.1 < b.1 := by
  have hmap : (f.clone rstart rend).map Extent.rangeOf
      = selectedPieces f rstart rend := by
    unfold File.clone selectedPieces
    rw [List.map_map]
    rfl
  refine ⟨hmap, ?_⟩
  rw [hmap]
  unfold selectedPieces
  rw [List.pairwise_map]
  have hfil : (f.extents.filter
      fun p => decide (rstart ≤ p.1) && decide (p.1 < rend)).Pairwise
      fun p q => p.1 < q.1 := List.Pairwise.filter _ hasc
  refine List.Pairwise.imp_of_mem ?_ hfil
  intro a b ha hb hlt
  rw [List.mem_filter] at ha hb
  have ha2 := ha.2
  have hb2 := hb.2
  simp only [Bool.and_eq_true, decide_eq_true_eq] at ha2 hb2
  simp only []
  omega

/-- C1 (witness for the amended theorem) at the `test_file` fixture and the
range `[0,5)`. -/
theorem clone_pieces_amended_witness :
    test_file.keysAscending ∧ 0 ≤ 5 ∧
    ((test_file.clone 0 5).map Extent.rangeOf = selectedPieces test_file 0 5 ∧
      ((test_file.clone 0 5).map Extent.rangeOf).Pairwise
        fun a b => a.1 < b.1) := by
  have hasc : test_file.keysAscending := by
    unfold File.keysAscending
    decide
  exact ⟨hasc, by decide, clone_pieces_amended test_file 0 5 hasc (by decide)⟩

/-- C2: cloning range `[0,5)` out of the fixture file with extents
`[0,11) = "Lorem ipsum"`, `[11,26) = " dolor sit amet"` and writing each
resulting extent into an empty file yields the bytes of "Lorem"
(the `cloning` test of `src/file/mod.rs`). -/
theorem clone_correctness :
    (File.writeAll File.new_empty (test_file.clone 0 5)).to_bytes
      = loremBytes := rfl

/-- C7: for every file with at least one extent, `File::len` is the last
extent's starting offset plus that extent's length. -/
theorem len_eq_last_extent (f : File) (s : Nat) (ex : Extent)
    (h : f.extents.getLast? = some (s, ex)) :
    f.len = s + ex.len := by
  simp [File.len, h]

/-- C7 (witness) at the `test_file` fixture. -/
theorem len_eq_last_extent_witness :
    test_file.len = 11 + (Extent.owned dolorSitAmet).len :=
  len_eq_last_extent test_file 11 (Extent.owned dolorSitAmet) rfl

/-- C8: requesting a range that lies entirely outside a file's (nonempty)
extents yields an empty result from `File::clone`, not an error. -/
theorem clone_outside_is_empty (f : File) (rstart rend : Nat)
    (hr : rstart ≤ rend)
    (hpos : ∀ p ∈ f.extents, 0 < p.2.len)
    (hout : ∀ p ∈ f.extents, p.1 + p.2.len ≤ rstart ∨ rend ≤ p.1) :
    f.clone rstart rend = [] := by
  have hfil : (f.extents.filter
      fun p => decide (rstart ≤ p.1) && decide (p.1 < rend)) = [] := by
    rw [List.filter_eq_nil_iff]
    intro p hp
    simp only [Bool.and_eq_true, decide_eq_true_eq, not_and]
    intro h1 h2
    rcases hout p hp with h3 | h3
    · have h4 := hpos p hp
      omega
    · omega
  unfold File.clone
  rw [hfil]
  rfl

/-- C8 (witness): the `test_file` fixture has logical length 26, and the
range `[26,30)` past its extents clones to the empty list. -/
theorem clone_outside_is_empty_witness :
    test_file.clone 26 30 = [] :=
  clone_outside_is_empty test_file 26 30 (by decide) (by decide) (by decide)

/-- C9: every Cloned extent produced by `File::clone` from a file whose
extents satisfy the extent invariant has a cached data view whose length
equals `end - start` of its source range. -/
theorem cloned_piece_invariant (f : File) (rstart rend : Nat)
    (hr : rstart ≤ rend) (hwf : ∀ p ∈ f.extents, Extent.WF p.2) :
    ∀ s e d, Extent.cloned s e d ∈ f.clone rstart rend →
      d.length = e - s := by
  intro s e d hmem
  unfold File.clone at hmem
  rw [List.mem_map] at hmem
  obtain ⟨p, hp, heq⟩ := hmem
  rw [List.mem_filter] at hp
  obtain ⟨hpmem, hkeep⟩ := hp
  simp only [Bool.and_eq_true, decide_eq_true_eq] at hkeep
  obtain ⟨h1, h2⟩ := hkeep
  have hwfp : p.2.data.length = p.2.len := hwf p hpmem
  have hmax : max rstart p.1 = p.1 := Nat.max_eq_right h1
  injection heq with hs he hd
  subst hs
  subst he
  subst hd
  rw [List.length_take, List.length_drop, hwfp, hmax]
  omega

/-- C9 (witness): the single piece cloned from `test_file` over `[0,5)` has
source range `(0,5)` and a 5-byte cached view. -/
theorem cloned_piece_invariant_witness :
    loremBytes.length = 5 - 0 :=
  cloned_piece_invariant test_file 0 5 (by decide)
    (by
      intro p hp
      fin_cases hp <;> rfl)
    0 5 loremBytes (by decide)

end VFS

namespace VFS

/-- C3: applying Mkfile("/a") then Rename("/a","/b") to an empty tree
yields a tree whose only entry — and only File — sits at "/b", with
nothing at "/a"; and a Rename whose from-path has no entry fails with
`MissingEntry`. -/
theorem mkfile_rename_roundtrip :
    applyCommands Tree.empty [.mkfile "/a", .rename "/a" "/b"]
      = .ok (Tree.empty.insert "/b" (.file File.default)) ∧
    (Tree.empty.insert "/b" (.file File.default)).get "/b"
      = some (.file File.default) ∧
    (Tree.empty.insert "/b" (.file File.default)).get "/a" = none ∧
    ((Tree.empty.insert "/b" (.file File.default)).entries.filter
      fun q => q.2.isFile).length = 1 ∧
    ∀ (t : Tree) (a b : String), t.get a = none →
      applyCommand t (.rename a b) = .error (.missingEntry a) := by
  refine ⟨rfl, rfl, rfl, rfl, ?_⟩
  intro t a b h
  simp [applyCommand, Tree.rename, Tree.removeEntry, h]

/-- C3 (witness): the universally quantified part, at the empty tree. -/
theorem mkfile_rename_roundtrip_witness :
    applyCommand Tree.empty (.rename "/nope" "/b")
      = .error (.missingEntry "/nope") :=
  mkfile_rename_roundtrip.2.2.2.2 Tree.empty "/nope" "/b" rfl

/-- C4: chmod/chown (and the interpreter's Chmod/Chown commands) fail with
the typed `MissingEntry` when the path has no entry; when it does, they
update that entry's metadata in place — for any entry, File or Directory —
leaving every other path unchanged. -/
theorem chmod_chown_missing_or_update (t : Tree) (p : String) (m u g : Nat) :
    (t.get p = none →
      t.chmod p m = .error (.missingEntry p) ∧
      t.chown p u g = .error (.missingEntry p) ∧
      applyCommand t (.chmod p m) = .error (.missingEntry p) ∧
      applyCommand t (.chown p u g) = .error (.missingEntry p)) ∧
    ∀ e, t.get p = some e →
      t.chmod p m = .ok (t.insert p (Entry.withMode m e)) ∧
      (t.insert p (Entry.withMode m e)).get p = some (Entry.withMode m e) ∧
      (∀ q, q ≠ p → (t.insert p (Entry.withMode m e)).get q = t.get q) ∧
      t.chown p u g = .ok (t.insert p (Entry.withOwner u g e)) ∧
      (t.insert p (Entry.withOwner u g e)).get p
        = some (Entry.withOwner u g e) ∧
      ∀ q, q ≠ p → (t.insert p (Entry.withOwner u g e)).get q = t.get q := by
  constructor
  · intro h
    refine ⟨?_, ?_, ?_, ?_⟩ <;> simp [Tree.chmod, Tree.chown, applyCommand, h]
  · intro e he
    refine ⟨by simp [Tree.chmod, he], Tree.get_insert_self _ _ _, ?_,
      by simp [Tree.chown, he], Tree.get_insert_self _ _ _, ?_⟩
    · intro q hq
      exact Tree.get_insert_ne _ _ _ _ hq
    · intro q hq
      exact Tree.get_insert_ne _ _ _ _ hq

/-- C4 (witness): at a tree holding a Directory at "/d", chmod of the
absent "/x" fails with MissingEntry, chmod of "/d" rewrites its mode. -/
theorem chmod_chown_missing_or_update_witness :
    (Tree.mk [("/d", .dir Directory.default)]).chmod "/x" 448
      = .error (.missingEntry "/x") ∧
    (Tree.mk [("/d", .dir Directory.default)]).chmod "/d" 448
      = .ok ((Tree.mk [("/d", .dir Directory.default)]).insert "/d"
          (Entry.withMode 448 (.dir Directory.default))) :=
  ⟨((chmod_chown_missing_or_update
      (Tree.mk [("/d", .dir Directory.default)]) "/x" 448 0 0).1 rfl).1,
   ((chmod_chown_missing_or_update
      (Tree.mk [("/d", .dir Directory.default)]) "/d" 448 0 0).2
      (.dir Directory.default) rfl).1⟩

/-- C5: a batch whose first command is neither a Subvol start nor a
Snapshot start is rejected with the typed `InvariantViolated` result. -/
theorem first_command_invariant (led : Ledger) (c : Command)
    (cs : List Command)
    (h1 : ∀ u, c ≠ Command.subvol u)
    (h2 : ∀ u v, c ≠ Command.snapshot u v) :
    interpretBatch led (c :: cs) = .error .invariantViolated := by
  cases c with
  | subvol u => exact absurd rfl (h1 u)
  | snapshot u v => exact absurd rfl (h2 u v)
  | mkdir p => rfl
  | mkfile p => rfl
  | chmod p m => rfl
  | chown p u g => rfl
  | rename a b => rfl
  | cloneRange sp ss se dp doff => rfl
  | other => rfl

/-- C5 (witness): a batch starting with Mkdir is rejected. -/
theorem first_command_invariant_witness :
    interpretBatch Ledger.empty [Command.mkdir "/x"]
      = .error .invariantViolated :=
  first_command_invariant Ledger.empty (.mkdir "/x") []
    (fun _ h => Command.noConfusion h) (fun _ _ h => Command.noConfusion h)

/-- C6: a Snapshot batch whose parent is not in the Ledger fails with
`MissingParent parent` and `receive` leaves the Ledger unchanged (no entry
for the batch's own identifier); when the parent is present, interpretation
continues on the parent's tree with `parent_uuid = some parent`. -/
theorem snapshot_parent_lookup (led : Ledger) (u par : Nat)
    (rest : List Command) :
    (led.get par = none →
      interpretBatch led (Command.snapshot u par :: rest)
        = .error (.missingParent par) ∧
      led.receive (Command.snapshot u par :: rest)
        = (led, some (.missingParent par))) ∧
    ∀ sv, led.get par = some sv →
      interpretBatch led (Command.snapshot u par :: rest)
        = (applyCommands sv.fs rest).map fun t => (u, ⟨some par, t⟩) := by
  constructor
  · intro h
    have hib : interpretBatch led (Command.snapshot u par :: rest)
        = .error (.missingParent par) := by
      simp [interpretBatch, h]
    exact ⟨hib, by simp [Ledger.receive, hib]⟩
  · intro sv h
    simp [interpretBatch, h]

/-- C6 (witness): the empty Ledger rejects a snapshot of the unseen parent
3 and stays empty; a Ledger holding parent 3 interprets the snapshot batch
starting from the parent's tree with `parent_uuid = some 3`. -/
theorem snapshot_parent_lookup_witness :
    Ledger.empty.receive [Command.snapshot 7 3]
      = (Ledger.empty, some (.missingParent 3)) ∧
    interpretBatch (Ledger.empty.insert 3 ⟨none, rootTree⟩)
        [Command.snapshot 7 3, Command.mkdir "/x"]
      = (applyCommands rootTree [Command.mkdir "/x"]).map
          fun t => (7, ⟨some 3, t⟩) :=
  ⟨((snapshot_parent_lookup Ledger.empty 7 3 []).1 rfl).2,
   (snapshot_parent_lookup (Ledger.empty.insert 3 ⟨none, rootTree⟩) 7 3
      [Command.mkdir "/x"]).2 ⟨none, rootTree⟩ rfl⟩

/-- C10: when the from-path has an entry, Rename moves exactly that entry
(content and metadata untouched) to the to-path and every other path reads
as before. -/
theorem rename_frame (t : Tree) (a b : String) (e : Entry)
    (h : t.get a = some e) :
    t.rename a b = .ok ((t.erase a).insert b e) ∧
    ((t.erase a).insert b e).get b = some e ∧
    ∀ q, q ≠ a → q ≠ b → ((t.erase a).insert b e).get q = t.get q := by
  refine ⟨by simp [Tree.rename, Tree.removeEntry, h],
    Tree.get_insert_self _ _ _, ?_⟩
  intro q hqa hqb
  rw [Tree.get_insert_ne _ _ _ _ hqb, Tree.get_erase_ne _ _ _ hqa]

/-- C10 (witness): moving "/a" to "/b" in a two-entry tree carries the File
entry over unchanged and leaves "/c" untouched. -/
theorem rename_frame_witness :
    (Tree.mk [("/a", .file File.default), ("/c", .dir Directory.default)]
      |>.rename "/a" "/b")
      = .ok (((Tree.mk [("/a", .file File.default),
          ("/c", .dir Directory.default)]).erase "/a").insert "/b"
          (.file File.default)) ∧
    (((Tree.mk [("/a", .file File.default),
        ("/c", .dir Directory.default)]).erase "/a").insert "/b"
        (.file File.default)).get "/c"
      = (Tree.mk [("/a", .file File.default),
          ("/c", .dir Directory.default)]).get "/c" :=
  ⟨(rename_frame (Tree.mk [("/a", .file File.default),
      ("/c", .dir Directory.default)]) "/a" "/b" (.file File.default)
      rfl).1,
   (rename_frame (Tree.mk [("/a", .file File.default),
      ("/c", .dir Directory.default)]) "/a" "/b" (.file File.default)
      rfl).2.2 "/c" (by decide) (by decide)⟩

end VFS
